import Mathlib

/-!
Verification of the SDF viewer (`src/main.cpp`) and of the SDF evaluation
engine it drives.  The CLI layer (argument parsing, grid generation,
validation, the call into `sdf::evaluate`) is embedded from `src/main.cpp`.
The engine itself (`sdf/sdf.hpp`: registry, primitives, combinators,
fractal and procedural fields) is not part of the repository sources; its
model below is built from the specification and each such definition is
marked `Modelled from the spec:`.
-/

namespace SDF

/-- Modelled from the spec: `Point3`, a three-component real-valued
coordinate.  Reals are modelled by `ℚ` (the engine claims under study do
not depend on floating rounding). -/
structure Vec3 where
  x : ℚ
  y : ℚ
  z : ℚ
deriving DecidableEq, Repr

/-- Squared Euclidean norm of a vector. -/
def Vec3.norm2 (v : Vec3) : ℚ := v.x ^ 2 + v.y ^ 2 + v.z ^ 2

/-- Exact square root on `ℚ`: returns the nonnegative rational square root
when the argument is a perfect square of a rational, and `0` otherwise.
Modelled from the spec: the engine computes real Euclidean norms; the
claims under verification evaluate norms only at points whose norm is
rational, where this function is the exact square root. -/
def qsqrt (q : ℚ) : ℚ :=
  if q ≤ 0 then 0
  else if Nat.sqrt q.num.toNat * Nat.sqrt q.num.toNat = q.num.toNat
      ∧ Nat.sqrt q.den * Nat.sqrt q.den = q.den then
    (Nat.sqrt q.num.toNat : ℚ) / (Nat.sqrt q.den : ℚ)
  else 0

/-- Euclidean norm (via `qsqrt`). -/
def Vec3.normQ (v : Vec3) : ℚ := qsqrt v.norm2

/-- Vector subtraction. -/
def Vec3.sub (a b : Vec3) : Vec3 := ⟨a.x - b.x, a.y - b.y, a.z - b.z⟩

/-- Modelled from the spec: distance primitives (closed-form signed
distance functions, §4.1). -/
inductive Prim where
  | sphere (center : Vec3) (radius : ℚ)
  | plane (offset : ℚ)
deriving DecidableEq, Repr

/-- Modelled from the spec: primitive distance evaluation — negative
inside, positive outside, zero on the boundary (§4.1). -/
def evalPrim : Prim → Vec3 → ℚ
  | .sphere c r, p => (Vec3.sub p c).normQ - r
  | .plane off, p => p.y - off

/-- Modelled from the spec: spatial transforms (§4.2). -/
inductive Transform where
  | translate (t : Vec3)
  | uniformScale (s : ℚ)
deriving DecidableEq, Repr

/-- Modelled from the spec: map a query point into the child field's local
space (§4.2). -/
def applyTransform : Transform → Vec3 → Vec3
  | .translate t, p => Vec3.sub p t
  | .uniformScale s, p => ⟨p.x / s, p.y / s, p.z / s⟩

/-- Modelled from the spec: correct the child distance on the way back up —
unchanged for rigid transforms, rescaled by the scale factor for uniform
scale (§4.2). -/
def correctDistance : Transform → ℚ → ℚ
  | .translate _, d => d
  | .uniformScale s, d => d * |s|

/-- Modelled from the spec: boolean/blend combinators (§4.3). -/
inductive CombOp where
  | union
  | inter
  | subtract
  | smoothUnion (k : ℚ)
deriving DecidableEq, Repr

/-- Modelled from the spec: polynomial smooth minimum with blend radius
`k > 0` (§4.3). -/
def smoothMin (k a b : ℚ) : ℚ :=
  let h := max 0 (min 1 ((1 : ℚ) / 2 + (b - a) / (2 * k)))
  (b * (1 - h) + a * h) - k * h * (1 - h)

/-- Modelled from the spec: combinator semantics — union is `min`,
intersection is `max`, subtraction is `max dA (−dB)`, smooth union falls
back exactly to the hard `min` at `k ≤ 0` (§4.3). -/
def combineOp : CombOp → ℚ → ℚ → ℚ
  | .union, a, b => min a b
  | .inter, a, b => max a b
  | .subtract, a, b => max a (-b)
  | .smoothUnion k, a, b => if k ≤ 0 then min a b else smoothMin k a b

/-- Modelled from the spec: the fixed iteration cap of the escape-time
fractal evaluator, "bounded, e.g. 8–12" (§4.4). -/
def fractalNMax : ℕ := 10

/-- Modelled from the spec: squared escape radius (escape radius 2.0,
§4.4); the loop compares squared magnitudes. -/
def fractalR2 : ℚ := 4

/-- Modelled from the spec: the small positive epsilon the distance
estimate is clamped to (§4.4). -/
def fractalEps : ℚ := 1 / 1000000

/-- Modelled from the spec: one application of the fixed nonlinear
escape-time map `z ← f(z) + c` — a quadratic bulb-style triplex square
(§4.4; the spec fixes only the escape-time shape of the map, not its
exact formula). -/
def bulbStep (c z : Vec3) : Vec3 :=
  ⟨z.x ^ 2 - z.y ^ 2 - z.z ^ 2 + c.x, 2 * z.x * z.y + c.y, 2 * z.x * z.z + c.z⟩

/-- Modelled from the spec: the bounded escape-time loop (§4.4).  Given
remaining fuel, the current iterate and the accumulated derivative scale,
it stops early as soon as the squared magnitude exceeds `fractalR2` and
returns the final iterate, the final derivative scale and the number of
iterations actually performed. -/
def escapeLoop (c : Vec3) : ℕ → Vec3 → ℚ → Vec3 × ℚ × ℕ
  | 0, z, dr => (z, dr, 0)
  | n + 1, z, dr =>
    if fractalR2 < z.norm2 then (z, dr, 0)
    else
      let r := escapeLoop c n (bulbStep c z) (2 * qsqrt z.norm2 * dr + 1)
      (r.1, r.2.1, r.2.2 + 1)

/-- Modelled from the spec: the escape-based distance estimate, computed
from the final magnitude and the accumulated derivative scale and clamped
below by the positive `fractalEps` (§4.4).  The log factor of the standard
estimator is a rational surrogate with the same sign behaviour (zero at
magnitude 1, positive beyond); the claims under verification depend only
on the clamp and the iteration bound, not on the exact estimate. -/
def fractalDist (c : Vec3) : ℚ :=
  let r := escapeLoop c fractalNMax c 1
  max fractalEps (qsqrt r.1.norm2 * (r.1.norm2 - 1) / (4 * r.2.1))

/-- Modelled from the spec: a 31-bit linear congruential step, the
documented deterministic pseudo-random algorithm seeded solely from the
provided seed integer (§9). -/
def lcg (s : ℕ) : ℕ := (1103515245 * s + 12345) % 2 ^ 31

/-- Modelled from the spec: a procedural/animated field (§4.5): the seed
deterministically derives the base radius, and time enters as a continuous
deformation. -/
def proceduralDist (p : Vec3) (t : ℚ) (seed : ℕ) : ℚ :=
  let r0 : ℚ := 1 / 2 + (lcg seed % 1000 : ℕ) / 4000
  p.normQ - (r0 + t / 10)

/-- Modelled from the spec: `Field`, a tagged variant over
{Primitive, Transformed, Combined, Fractal, Procedural} (§3, §9). -/
inductive Field where
  | prim (p : Prim)
  | transformed (t : Transform) (f : Field)
  | combined (op : CombOp) (a b : Field)
  | fractal
  | procedural

/-- Modelled from the spec: recursive evaluation of a field tree at one
point — transform, then child, then distance correction; combinators
combine the child distances (§3 data flow, §9). -/
def evalField : Field → Vec3 → ℚ → ℕ → ℚ
  | .prim pr, p, _, _ => evalPrim pr p
  | .transformed tr f, p, t, s => correctDistance tr (evalField f (applyTransform tr p) t s)
  | .combined op a b, p, t, s => combineOp op (evalField a p t s) (evalField b p t s)
  | .fractal, p, _, _ => fractalDist p
  | .procedural, p, t, s => proceduralDist p t s

/-- Modelled from the spec: the process-wide immutable registry mapping
stable names to root fields (§3); the names are those the CLI usage text
exercises. -/
def registry : List (String × Field) :=
  [("Sphere", .prim (.sphere ⟨0, 0, 0⟩ 1)),
   ("Mandelbulb", .fractal),
   ("Fish", .procedural)]

/-- Modelled from the spec: `listNames()` — stable, deterministic
registration-order enumeration of the registry (§4.6). -/
def listNames : List String := registry.map Prod.fst

/-- Modelled from the spec: registry lookup of a root field by name. -/
def lookupField (name : String) : Option Field := registry.lookup name

/-- Modelled from the spec: the single expected engine-level failure kind
(§6, §7). -/
inductive EvalError where
  | unknownName
deriving DecidableEq, Repr

/-- Modelled from the spec: `evaluate(name, points, time, seed)` — looks
up the name, fails with `UnknownNameError` if absent, otherwise evaluates
the field at every point with the shared time/seed, producing a
position-aligned result sequence (§4.6). -/
def evaluate (name : String) (points : List Vec3) (t : ℚ) (seed : ℕ) :
    Except EvalError (List ℚ) :=
  match lookupField name with
  | none => .error .unknownName
  | some f => .ok (points.map fun p => evalField f p t seed)

/-- Ambient process state available to a running evaluation: wall clock
and process identity. -/
structure ProcessEnv where
  wallClock : ℕ
  processId : ℕ

/-- Modelled from the spec: the runtime entry point of the evaluator as
seen by a process.  The ambient state is in scope, but per §9 procedural
randomness is derived solely from the seed integer, never from wall-clock
or process state, so the computation does not consult it. -/
def evaluateInProcess (_env : ProcessEnv) (name : String) (points : List Vec3)
    (t : ℚ) (seed : ℕ) : Except EvalError (List ℚ) :=
  evaluate name points t seed

end SDF

namespace CLI

/-- A floating-point value as used by the CLI grid generator
(`src/main.cpp:113-123`): a finite value (carried exactly as a rational),
the two infinities, or NaN.  Finite arithmetic is modelled exactly; the
quantities the CLI computes are bounded by small constants, so overflow of
finite results cannot occur, and the IEEE special-value rules (division by
zero, `0 · ∞`, NaN propagation) are modelled faithfully. -/
inductive FP where
  | finite (q : ℚ)
  | inf
  | neginf
  | nan
deriving DecidableEq, Repr

/-- Whether a floating-point value is finite (neither infinite nor NaN). -/
def FP.isFinite : FP → Bool
  | .finite _ => true
  | _ => false

/-- IEEE negation. -/
def FP.neg : FP → FP
  | .finite a => .finite (-a)
  | .inf => .neginf
  | .neginf => .inf
  | .nan => .nan

/-- IEEE addition on the modelled values. -/
def fadd : FP → FP → FP
  | .finite a, .finite b => .finite (a + b)
  | .nan, _ => .nan
  | _, .nan => .nan
  | .inf, .neginf => .nan
  | .neginf, .inf => .nan
  | .inf, _ => .inf
  | _, .inf => .inf
  | .neginf, _ => .neginf
  | _, .neginf => .neginf

/-- IEEE subtraction: `a − b = a + (−b)`. -/
def fsub (a b : FP) : FP := fadd a (FP.neg b)

/-- IEEE multiplication on the modelled values: `0 · ∞ = NaN`, NaN
propagates, signs multiply. -/
def fmul : FP → FP → FP
  | .finite a, .finite b => .finite (a * b)
  | .nan, _ => .nan
  | _, .nan => .nan
  | .inf, .inf => .inf
  | .inf, .neginf => .neginf
  | .neginf, .inf => .neginf
  | .neginf, .neginf => .inf
  | .finite a, .inf => if 0 < a then .inf else if a < 0 then .neginf else .nan
  | .finite a, .neginf => if 0 < a then .neginf else if a < 0 then .inf else .nan
  | .inf, .finite a => if 0 < a then .inf else if a < 0 then .neginf else .nan
  | .neginf, .finite a => if 0 < a then .neginf else if a < 0 then .inf else .nan

/-- IEEE division on the modelled values: a nonzero finite value divided
by zero gives a signed infinity, `0 / 0 = NaN`, NaN propagates. -/
def fdiv : FP → FP → FP
  | .finite a, .finite b =>
    if b = 0 then
      if 0 < a then .inf else if a < 0 then .neginf else .nan
    else .finite (a / b)
  | .nan, _ => .nan
  | _, .nan => .nan
  | .inf, .inf => .nan
  | .inf, .neginf => .nan
  | .neginf, .inf => .nan
  | .neginf, .neginf => .nan
  | .inf, .finite a => if a < 0 then .neginf else .inf
  | .neginf, .finite a => if a < 0 then .inf else .neginf
  | .finite _, .inf => .finite 0
  | .finite _, .neginf => .finite 0

/-- Conversion of a `uint32` value to float (`static_cast<float>` in
`src/main.cpp:115,120-122`), modelled exactly; the values at which a real
float cast would round (above `2^24`) never reach a coordinate that is
generated. -/
def floatOfU32 (n : ℕ) : FP := .finite n

/-- `minBound` of the grid (`src/main.cpp:113`). -/
def minBound : FP := .finite (-1)

/-- `maxBound` of the grid (`src/main.cpp:114`). -/
def maxBound : FP := .finite 1

/-- The `uint32` subtraction `resolution - 1` (`src/main.cpp:115`): wraps
to `2^32 − 1` when `resolution = 0`. -/
def resMinusOne (res : ℕ) : ℕ := if res = 0 then 2 ^ 32 - 1 else res - 1

/-- The grid step `(maxBound − minBound) / float(resolution − 1)`
(`src/main.cpp:115`). -/
def gridStep (res : ℕ) : FP := fdiv (fsub maxBound minBound) (floatOfU32 (resMinusOne res))

/-- One grid coordinate `minBound + k * step` (`src/main.cpp:120-122`). -/
def gridCoord (res k : ℕ) : FP := fadd minBound (fmul (floatOfU32 k) (gridStep res))

/-- A generated grid point (the `glm::vec3` of `src/main.cpp:123`). -/
abbrev PointFP := FP × FP × FP

/-- The triple generation loop of `src/main.cpp:117-126`: `z` outermost,
then `y`, then `x`, each running over `0, …, resolution − 1`, appending
`(minBound + x·step, minBound + y·step, minBound + z·step)`. -/
def gridPoints (res : ℕ) : List PointFP :=
  (List.range res).flatMap fun z =>
    (List.range res).flatMap fun y =>
      (List.range res).map fun x => (gridCoord res x, gridCoord res y, gridCoord res z)

/-- All three coordinates of a generated point are finite. -/
def pointFinite (p : PointFP) : Bool :=
  p.1.isFinite && p.2.1.isFinite && p.2.2.isFinite

/-- Accumulate a leading run of decimal digits, stopping at the first
non-digit (the digit-consuming core of C `atoi`/`atof`). -/
def digitsVal (acc : ℕ) : List Char → ℕ
  | [] => acc
  | c :: rest => if c.isDigit then digitsVal (10 * acc + (c.toNat - 48)) rest else acc

/-- C `std::atoi` (`src/main.cpp:65,71`): skip leading whitespace, an
optional sign, then a run of decimal digits; `0` when no digits. -/
def atoiInt (s : String) : ℤ :=
  let cs := s.toList.dropWhile fun c => c = ' ' || c = '\t' || c = '\n'
  match cs with
  | '-' :: rest => -(digitsVal 0 rest : ℤ)
  | '+' :: rest => (digitsVal 0 rest : ℤ)
  | _ => (digitsVal 0 cs : ℤ)

/-- `static_cast<uint32_t>` of an `int` (`src/main.cpp:65,71`): modular
reduction into `[0, 2^32)`. -/
def toU32 (z : ℤ) : ℕ := (z % (2 ^ 32 : ℤ)).toNat

/-- C `std::atof` (`src/main.cpp:68`) on decimal literals: optional sign,
integer digits, optional fraction.  (Exponent forms are not exercised by
any claim; the `float` narrowing of the parsed value is modelled as
exact.) -/
def atofQ (s : String) : ℚ :=
  let cs := s.toList.dropWhile fun c => c = ' ' || c = '\t' || c = '\n'
  let signed : ℚ × List Char :=
    match cs with
    | '-' :: rest => (-1, rest)
    | '+' :: rest => (1, rest)
    | _ => (1, cs)
  let intPart := signed.2.takeWhile Char.isDigit
  let rest := signed.2.dropWhile Char.isDigit
  let frac :=
    match rest with
    | '.' :: fs => fs.takeWhile Char.isDigit
    | _ => []
  signed.1 * ((digitsVal 0 intPart : ℚ) + (digitsVal 0 frac : ℚ) / (10 ^ frac.length))

/-- `arg[0]` of a `std::string` (`src/main.cpp:73`): the first character,
or the null character for the empty string (guaranteed by `operator[]` at
`size()`). -/
def firstChar (s : String) : Char := s.toList.headD (Char.ofNat 0)

/-- Outcome of the argument-parsing loop of `src/main.cpp:53-81`:
`--help`/`--list` return from `main` with exit code 0, an unrecognized
argument returns 1, and otherwise the loop falls through to the grid and
evaluation stage with the accumulated name, resolution, time and seed. -/
inductive ParseResult where
  | usageOk
  | listed
  | badArg
  | done (sdfName : String) (resolution : ℕ) (time : ℚ) (seed : ℕ)
deriving DecidableEq, Repr

/-- The argument-parsing loop of `src/main.cpp:53-81`, one branch per
`else if`: a value-taking flag consumes the following argument only when
one exists (`i + 1 < argc`), a first non-flag argument becomes the SDF
name, and anything else prints usage and exits 1.  The first parameter is
recursion fuel; each loop step consumes at least one argument, so
`parseArgs` below supplies `args.length` and the fuel-exhausted branch is
unreachable. -/
def parseLoop : ℕ → List String → String → ℕ → ℚ → ℕ → ParseResult
  | _, [], name, r, t, s => .done name r t s
  | 0, _ :: _, _, _, _, _ => .badArg
  | fuel + 1, a :: rest, name, r, t, s =>
    if a = "--help" ∨ a = "-h" then .usageOk
    else if a = "--list" ∨ a = "-l" then .listed
    else
      match rest with
      | v :: rest2 =>
        if a = "--resolution" ∨ a = "-r" then
          parseLoop fuel rest2 name (toU32 (atoiInt v)) t s
        else if a = "--time" ∨ a = "-t" then
          parseLoop fuel rest2 name r (atofQ v) s
        else if a = "--seed" ∨ a = "-s" then
          parseLoop fuel rest2 name r t (toU32 (atoiInt v))
        else if firstChar a ≠ '-' ∧ name = "" then
          parseLoop fuel rest a r t s
        else .badArg
      | [] =>
        if firstChar a ≠ '-' ∧ name = "" then
          parseLoop fuel rest a r t s
        else .badArg

/-- Argument parsing with the initial values of `src/main.cpp:48-51`:
empty name, resolution 32, time 0.0, seed 12345. -/
def parseArgs (args : List String) : ParseResult :=
  parseLoop args.length args "" 32 0 12345

/-- `sdf::getAvailableSDFs()` as called by the CLI (`src/main.cpp:41,90`);
modelled by the engine registry's name enumeration. -/
def getAvailableSDFs : List String := SDF.listNames

/-- The observable outcome of a `main` run: an early `return code`
(help/list/usage error/missing or unknown name), the catch branch of
`src/main.cpp:132-135` (error message, `return 1`), or a successful run
that hands the evaluated values to the visualization. -/
inductive CliOutcome where
  | exit (code : ℕ)
  | evalFailed (code : ℕ)
  | view (vals : List ℚ)
deriving DecidableEq, Repr

/-- The type of the batch evaluator the CLI calls (`sdf::evaluate`,
`src/main.cpp:131`). -/
def Evaluator : Type :=
  String → List PointFP → ℚ → ℕ → Except SDF.EvalError (List ℚ)

/-- The try/catch around the evaluation call (`src/main.cpp:130-135`): an
exception becomes an error message and `return 1`; success proceeds to
visualization. -/
def evalOutcome : Except SDF.EvalError (List ℚ) → CliOutcome
  | .error _ => .evalFailed 1
  | .ok vals => .view vals

/-- `main` of `src/main.cpp:46-174`, parameterized by the engine's batch
evaluator: parse arguments, reject a missing (`:83-87`) or unknown
(`:89-103`) SDF name with exit code 1 before any evaluation, generate the
grid (`:108-126`), then evaluate (`:128-135`). -/
def cliMainWith (ev : Evaluator) (args : List String) : CliOutcome :=
  match parseArgs args with
  | .usageOk => .exit 0
  | .listed => .exit 0
  | .badArg => .exit 1
  | .done name r t s =>
    if name = "" then .exit 1
    else if getAvailableSDFs.contains name then evalOutcome (ev name (gridPoints r) t s)
    else .exit 1

/-- The ideal value of the grid coordinate with index `k` at a given
resolution, `−1 + k · (2 / (resolution − 1))`, as a rational. -/
def coordQ (res k : ℕ) : ℚ := -1 + k * (2 / ((res : ℚ) - 1))

/-- No element of the argument list is one of the time or seed flags. -/
def timeSeedFlagFree (args : List String) : Prop :=
  ∀ a ∈ args, a ≠ "--time" ∧ a ≠ "-t" ∧ a ≠ "--seed" ∧ a ≠ "-s"

instance (args : List String) : Decidable (timeSeedFlagFree args) := by
  unfold timeSeedFlagFree
  infer_instance

end CLI

namespace SDF

/-- Sphere A of the union test: centered at the origin, radius 1. -/
def sphereA : Field := .prim (.sphere ⟨0, 0, 0⟩ 1)

/-- Sphere B of the union test: centered at `(3,0,0)`, radius 1. -/
def sphereB : Field := .prim (.sphere ⟨3, 0, 0⟩ 1)

/-- The union of the two test spheres. -/
def unionAB : Field := .combined .union sphereA sphereB

end SDF

namespace SDF

theorem qsqrt_sq (r : ℚ) (h0 : 0 ≤ r) : qsqrt (r * r) = r := by
  rcases eq_or_lt_of_le h0 with h | h
  · rw [← h]
    norm_num [qsqrt]
  · have hrr : 0 < r * r := mul_pos h h
    have hnum0 : 0 ≤ r.num := le_of_lt (Rat.num_pos.mpr h)
    unfold qsqrt
    rw [if_neg (not_le.mpr hrr)]
    have hnum : (r * r).num = r.num * r.num := Rat.mul_self_num r
    have hden : (r * r).den = r.den * r.den := Rat.mul_self_den r
    have htn : (r * r).num.toNat = r.num.toNat * r.num.toNat := by
      rcases Int.eq_ofNat_of_zero_le hnum0 with ⟨n, hn⟩
      rw [hnum, hn]
      rw [← Int.natCast_mul]
      simp only [Int.toNat_natCast]
    rw [htn, hden, Nat.sqrt_eq, Nat.sqrt_eq]
    rw [if_pos ⟨rfl, rfl⟩]
    have hcast : ((r.num.toNat : ℚ)) = (r.num : ℚ) := by
      rw [← Int.cast_natCast, Int.toNat_of_nonneg hnum0]
    rw [hcast]
    exact Rat.num_div_den r

theorem qsqrt_of_eq_sq (q r : ℚ) (h0 : 0 ≤ r) (h : q = r * r) : qsqrt q = r := by
  rw [h]
  exact qsqrt_sq r h0

end SDF

namespace CLI

theorem flatMap_length_const {α β : Type} (l : List α) (f : α → List β) (m : ℕ)
    (hm : ∀ a ∈ l, (f a).length = m) : (l.flatMap f).length = l.length * m := by
  induction l with
  | nil => simp
  | cons a l ih =>
    simp only [List.flatMap_cons, List.length_append, List.length_cons]
    rw [hm a (List.mem_cons_self a l), ih fun b hb => hm b (List.mem_cons_of_mem a hb)]
    ring

theorem flatMap_getElem? {α β : Type} (l : List α) (f : α → List β) (m k j : ℕ)
    (hm : ∀ a ∈ l, (f a).length = m) (hk : k < l.length) (hj : j < m) :
    (l.flatMap f)[m * k + j]? = (f (l.get ⟨k, hk⟩))[j]? := by
  induction l generalizing k with
  | nil => simp at hk
  | cons a l ih =>
    cases k with
    | zero =>
      simp only [List.flatMap_cons, Nat.mul_zero, Nat.zero_add]
      rw [List.getElem?_append_left (by rw [hm a (List.mem_cons_self a l)]; exact hj)]
      rfl
    | succ k =>
      have hfa : (f a).length = m := hm a (List.mem_cons_self a l)
      have hk' : k < l.length := by simpa using Nat.lt_of_succ_lt_succ hk
      simp only [List.flatMap_cons]
      rw [List.getElem?_append_right (by rw [hfa, Nat.mul_succ]; omega)]
      have hsub : m * (k + 1) + j - (f a).length = m * k + j := by
        rw [hfa, Nat.mul_succ]
        omega
      rw [hsub, ih k (fun b hb => hm b (List.mem_cons_of_mem a hb)) hk']
      rfl

theorem gridRow_length (res w v : ℕ) :
    ((List.range res).map fun x => (gridCoord res x, gridCoord res v, gridCoord res w)).length
      = res := by
  rw [List.length_map, List.length_range]

theorem gridPlane_length (res w : ℕ) :
    ((List.range res).flatMap fun y =>
      (List.range res).map fun x => (gridCoord res x, gridCoord res y, gridCoord res w)).length
      = res * res := by
  rw [flatMap_length_const _ _ res fun y _ => gridRow_length res w y, List.length_range]

theorem gridPoints_length (res : ℕ) : (gridPoints res).length = res ^ 3 := by
  unfold gridPoints
  rw [flatMap_length_const _ _ (res * res) fun z _ => gridPlane_length res z,
    List.length_range]
  ring

theorem gridPoints_getIdx (res x y z : ℕ) (hx : x < res) (hy : y < res) (hz : z < res) :
    (gridPoints res)[x + res * (y + res * z)]? =
      some (gridCoord res x, gridCoord res y, gridCoord res z) := by
  have hzr : z < (List.range res).length := by simpa using hz
  have hyr : y < (List.range res).length := by simpa using hy
  have hin : res * y + x < res * res := by
    calc res * y + x < res * y + res := by omega
    _ = res * (y + 1) := by ring
    _ ≤ res * res := Nat.mul_le_mul_left res hy
  have hidx : x + res * (y + res * z) = res * res * z + (res * y + x) := by ring
  unfold gridPoints
  rw [hidx, flatMap_getElem? _ _ (res * res) z (res * y + x)
    (fun a _ => gridPlane_length res a) hzr hin]
  simp only [List.get_eq_getElem, List.getElem_range]
  rw [flatMap_getElem? _ _ res y x (fun b _ => gridRow_length res z b) hyr hx]
  simp [List.getElem?_map, List.getElem?_range hx]

theorem resMinusOne_of_pos (res : ℕ) (h : 1 ≤ res) : resMinusOne res = res - 1 := by
  unfold resMinusOne
  rw [if_neg (by omega)]

theorem fsub_bounds : fsub maxBound minBound = FP.finite 2 := by
  simp only [fsub, fadd, FP.neg, maxBound, minBound]
  norm_num

theorem gridStep_eq (res : ℕ) (h2 : 2 ≤ res) :
    gridStep res = FP.finite (2 / ((res : ℚ) - 1)) := by
  have hcast : ((res - 1 : ℕ) : ℚ) = (res : ℚ) - 1 := by
    rw [Nat.cast_sub (by omega), Nat.cast_one]
  have hne : ((res : ℚ) - 1) ≠ 0 := by
    have : (2 : ℚ) ≤ (res : ℚ) := by exact_mod_cast h2
    intro hc
    linarith
  unfold gridStep floatOfU32
  rw [fsub_bounds, resMinusOne_of_pos res (by omega), hcast]
  simp [fdiv, hne]

theorem gridCoord_eq (res k : ℕ) (h2 : 2 ≤ res) :
    gridCoord res k = FP.finite (coordQ res k) := by
  unfold gridCoord floatOfU32
  rw [gridStep_eq res h2]
  simp [fmul, fadd, minBound, coordQ]

theorem coordQ_bounds (res k : ℕ) (h2 : 2 ≤ res) (hk : k < res) :
    -1 ≤ coordQ res k ∧ coordQ res k ≤ 1 := by
  have hres : (2 : ℚ) ≤ (res : ℚ) := by exact_mod_cast h2
  have hd : 0 < (res : ℚ) - 1 := by linarith
  have hkc : (k : ℚ) ≤ (res : ℚ) - 1 := by
    have : (k : ℚ) + 1 ≤ (res : ℚ) := by exact_mod_cast hk
    linarith
  have hk0 : 0 ≤ (k : ℚ) := Nat.cast_nonneg k
  constructor
  · have : 0 ≤ (k : ℚ) * (2 / ((res : ℚ) - 1)) := by positivity
    unfold coordQ
    linarith
  · have hmain : (k : ℚ) * (2 / ((res : ℚ) - 1)) ≤ 2 := by
      have hrw : (k : ℚ) * (2 / ((res : ℚ) - 1)) = (2 * k) / ((res : ℚ) - 1) := by
        ring
      rw [hrw, div_le_iff hd]
      nlinarith
    unfold coordQ
    linarith

theorem coordQ_zero (res : ℕ) : coordQ res 0 = -1 := by
  simp [coordQ]

theorem coordQ_last (res : ℕ) (h2 : 2 ≤ res) : coordQ res (res - 1) = 1 := by
  have hcast : ((res - 1 : ℕ) : ℚ) = (res : ℚ) - 1 := by
    rw [Nat.cast_sub (by omega), Nat.cast_one]
  have hne : ((res : ℚ) - 1) ≠ 0 := by
    have : (2 : ℚ) ≤ (res : ℚ) := by exact_mod_cast h2
    intro hc
    linarith
  unfold coordQ
  rw [hcast]
  field_simp
  norm_num

theorem parseLoop_keeps_time_seed :
    ∀ (fuel : ℕ) (args : List String) (name : String) (r : ℕ) (t : ℚ) (s : ℕ)
      (n : String) (r2 : ℕ) (t2 : ℚ) (s2 : ℕ),
      timeSeedFlagFree args →
      parseLoop fuel args name r t s = .done n r2 t2 s2 →
      t2 = t ∧ s2 = s := by
  intro fuel
  induction fuel with
  | zero =>
    intro args name r t s n r2 t2 s2 _ hp
    cases args with
    | nil =>
      simp only [parseLoop, ParseResult.done.injEq] at hp
      exact ⟨hp.2.2.1.symm, hp.2.2.2.symm⟩
    | cons a rest => simp [parseLoop] at hp
  | succ fuel ih =>
    intro args name r t s n r2 t2 s2 hfree hp
    cases args with
    | nil =>
      simp only [parseLoop, ParseResult.done.injEq] at hp
      exact ⟨hp.2.2.1.symm, hp.2.2.2.symm⟩
    | cons a rest =>
      have hfa := hfree a (List.mem_cons_self a rest)
      have hfrest : timeSeedFlagFree rest := fun b hb => hfree b (List.mem_cons_of_mem a hb)
      cases rest with
      | nil =>
        simp only [parseLoop] at hp
        by_cases h1 : a = "--help" ∨ a = "-h"
        · rw [if_pos h1] at hp
          simp at hp
        rw [if_neg h1] at hp
        by_cases h2 : a = "--list" ∨ a = "-l"
        · rw [if_pos h2] at hp
          simp at hp
        rw [if_neg h2] at hp
        by_cases h3 : firstChar a ≠ '-' ∧ name = ""
        · rw [if_pos h3] at hp
          simp only [ParseResult.done.injEq] at hp
          exact ⟨hp.2.2.1.symm, hp.2.2.2.symm⟩
        · rw [if_neg h3] at hp
          simp at hp
      | cons v rest2 =>
        have hfrest2 : timeSeedFlagFree rest2 :=
          fun b hb => hfrest b (List.mem_cons_of_mem v hb)
        simp only [parseLoop] at hp
        by_cases h1 : a = "--help" ∨ a = "-h"
        · rw [if_pos h1] at hp
          simp at hp
        rw [if_neg h1] at hp
        by_cases h2 : a = "--list" ∨ a = "-l"
        · rw [if_pos h2] at hp
          simp at hp
        rw [if_neg h2] at hp
        by_cases h3 : a = "--resolution" ∨ a = "-r"
        · rw [if_pos h3] at hp
          exact ih rest2 name (toU32 (atoiInt v)) t s n r2 t2 s2 hfrest2 hp
        rw [if_neg h3] at hp
        by_cases h4 : a = "--time" ∨ a = "-t"
        · rcases hfa with ⟨hA, hB, _, _⟩
          rcases h4 with h | h <;> exact absurd h (by simpa)
        rw [if_neg h4] at hp
        by_cases h5 : a = "--seed" ∨ a = "-s"
        · rcases hfa with ⟨_, _, hC, hD⟩
          rcases h5 with h | h <;> exact absurd h (by simpa)
        rw [if_neg h5] at hp
        by_cases h6 : firstChar a ≠ '-' ∧ name = ""
        · rw [if_pos h6] at hp
          exact ih (v :: rest2) a r t s n r2 t2 s2 hfrest hp
        · rw [if_neg h6] at hp
          simp at hp

theorem names_contains (n : String) (h : n ∈ SDF.listNames) :
    getAvailableSDFs.contains n = true := by
  simpa [getAvailableSDFs, List.contains] using List.elem_eq_true_of_mem h

theorem names_not_contains (n : String) (h : n ∉ SDF.listNames) :
    getAvailableSDFs.contains n = false := by
  by_contra hc
  rw [Bool.not_eq_false] at hc
  exact h (List.mem_of_elem_eq_true (by simpa [getAvailableSDFs, List.contains] using hc))

theorem names_ne_empty (n : String) (h : n ∈ SDF.listNames) : n ≠ "" := by
  simp only [SDF.listNames, SDF.registry, List.map_cons, List.map_nil,
    List.mem_cons, List.not_mem_nil, or_false] at h
  rcases h with h | h | h <;> subst h <;> decide

end CLI

namespace SDF

theorem lookupField_of_not_mem (name : String) (h1 : name ∉ listNames) :
    lookupField name = none := by
  simp only [listNames, registry, List.map_cons, List.map_nil, List.mem_cons,
    List.not_mem_nil, or_false, not_or] at h1
  obtain ⟨hs, hm, hf⟩ := h1
  have b1 : (name == "Sphere") = false := beq_eq_false_iff_ne.mpr hs
  have b2 : (name == "Mandelbulb") = false := beq_eq_false_iff_ne.mpr hm
  have b3 : (name == "Fish") = false := beq_eq_false_iff_ne.mpr hf
  simp [lookupField, registry, List.lookup, b1, b2, b3]

theorem escapeLoop_count (c : Vec3) (n : ℕ) (z : Vec3) (dr : ℚ) :
    (escapeLoop c n z dr).2.2 ≤ n ∧
      ((escapeLoop c n z dr).2.2 < n → fractalR2 < (escapeLoop c n z dr).1.norm2) := by
  induction n generalizing z dr with
  | zero => simp [escapeLoop]
  | succ n ih =>
    simp only [escapeLoop]
    by_cases h : fractalR2 < z.norm2
    · rw [if_pos h]
      exact ⟨Nat.zero_le _, fun _ => h⟩
    · rw [if_neg h]
      obtain ⟨ha, hb⟩ := ih (bulbStep c z) (2 * qsqrt z.norm2 * dr + 1)
      exact ⟨Nat.succ_le_succ ha, fun hlt => hb (Nat.lt_of_succ_lt_succ hlt)⟩

theorem fractalDist_nonneg (c : Vec3) : 0 ≤ fractalDist c := by
  have heps : (0 : ℚ) ≤ fractalEps := by norm_num [fractalEps]
  simp only [fractalDist]
  exact le_trans heps (le_max_left _ _)

end SDF

section Claims

open SDF CLI

/-- C1: every successful evaluation returns one value per input point,
position-aligned, and the result is a pure per-point function of each
point: selecting the input points through any index list (in particular
any permutation) selects the output values through the same index list. -/
theorem claim_position_alignment (name : String) (pts : List Vec3) (t : ℚ) (s : ℕ)
    (res : List ℚ) (idxs : List ℕ)
    (h : evaluate name pts t s = .ok res) :
    res.length = pts.length ∧
      evaluate name (idxs.filterMap fun j => pts[j]?) t s =
        .ok (idxs.filterMap fun j => res[j]?) := by
  cases hf : lookupField name with
  | none =>
    rw [evaluate, hf] at h
    exact absurd h (by simp)
  | some f =>
    rw [evaluate, hf] at h
    simp only [Except.ok.injEq] at h
    subst h
    refine ⟨List.length_map _ _, ?_⟩
    rw [evaluate, hf]
    simp only [Except.ok.injEq]
    rw [List.map_filterMap]
    simp [List.getElem?_map]

/-- Witness for claim_position_alignment at the registered name `Sphere`
on a two-point batch, reversed by the index list `[1, 0]`. -/
theorem claim_position_alignment_witness :
    ([2, -1] : List ℚ).length = ([⟨3, 0, 0⟩, ⟨0, 0, 0⟩] : List Vec3).length ∧
      evaluate "Sphere" (([1, 0] : List ℕ).filterMap fun j =>
          ([⟨3, 0, 0⟩, ⟨0, 0, 0⟩] : List Vec3)[j]?) 0 5 =
        .ok (([1, 0] : List ℕ).filterMap fun j => ([2, -1] : List ℚ)[j]?) :=
  claim_position_alignment "Sphere" [⟨3, 0, 0⟩, ⟨0, 0, 0⟩] 0 5 [2, -1] [1, 0] (by
    have h9 : qsqrt 9 = 3 := qsqrt_of_eq_sq 9 3 (by norm_num) (by norm_num)
    have h0 : qsqrt 0 = 0 := by simp [qsqrt]
    simp [evaluate, lookupField, registry, List.lookup, evalField, evalPrim,
      Vec3.sub, Vec3.normQ, Vec3.norm2]
    norm_num [h9, h0])

/-- C2: evaluating a name absent from `listNames` fails with the
unknown-name error (never a default-shape result), and the CLI rejects an
unknown SDF name with exit code 1 before any evaluation — its outcome does
not depend on the evaluator at all. -/
theorem claim_unknown_name_error (name : String) (pts : List Vec3) (t : ℚ) (s : ℕ)
    (ev ev2 : Evaluator) (args : List String) (r : ℕ) (tq : ℚ) (sd : ℕ)
    (h1 : name ∉ listNames)
    (h2 : parseArgs args = .done name r tq sd) :
    evaluate name pts t s = .error .unknownName
    ∧ cliMainWith ev args = .exit 1
    ∧ cliMainWith ev args = cliMainWith ev2 args := by
  have hlook := lookupField_of_not_mem name h1
  have hcf := names_not_contains name h1
  have hcli : ∀ e : Evaluator, cliMainWith e args = .exit 1 := by
    intro e
    simp only [cliMainWith, h2]
    by_cases hne : name = ""
    · rw [if_pos hne]
    · rw [if_neg hne, if_neg (by rw [hcf]; exact Bool.false_ne_true)]
  exact ⟨by rw [evaluate, hlook], hcli ev, (hcli ev).trans (hcli ev2).symm⟩

/-- Witness for claim_unknown_name_error at the unregistered name
`Blob`. -/
theorem claim_unknown_name_error_witness :
    evaluate "Blob" [⟨1, 1, 1⟩] 0 7 = .error .unknownName
    ∧ cliMainWith (fun _ _ _ _ => .ok []) ["Blob"] = .exit 1
    ∧ cliMainWith (fun _ _ _ _ => .ok []) ["Blob"] =
        cliMainWith (fun _ _ _ _ => .error .unknownName) ["Blob"] :=
  claim_unknown_name_error "Blob" [⟨1, 1, 1⟩] 0 7 (fun _ _ _ _ => .ok [])
    (fun _ _ _ _ => .error .unknownName) ["Blob"] 32 0 12345 (by decide) (by decide)

/-- C3: evaluation is a deterministic function of exactly
(name, points, time, seed): two runs agree, and the result does not depend
on the ambient process state (wall clock, process id) an evaluation runs
under — procedural randomness is derived solely from the seed. -/
theorem claim_deterministic_evaluation (env env2 : ProcessEnv) (name : String)
    (pts : List Vec3) (t : ℚ) (s : ℕ) :
    evaluateInProcess env name pts t s = evaluateInProcess env2 name pts t s
    ∧ evaluateInProcess env name pts t s = evaluate name pts t s :=
  ⟨rfl, rfl⟩

/-- C4: evaluating a registered name on an empty point sequence returns an
empty result, not an error. -/
theorem claim_empty_batch (name : String) (t : ℚ) (s : ℕ) (h : name ∈ listNames) :
    evaluate name [] t s = .ok [] := by
  simp only [listNames, registry, List.map_cons, List.map_nil, List.mem_cons,
    List.not_mem_nil, or_false] at h
  rcases h with h | h | h <;> subst h <;> rfl

/-- Witness for claim_empty_batch at the registered name `Sphere`. -/
theorem claim_empty_batch_witness :
    "Sphere" ∈ listNames ∧ evaluate "Sphere" [] (3 / 2) 42 = .ok [] :=
  ⟨by decide, claim_empty_batch "Sphere" (3 / 2) 42 (by decide)⟩

/-- C5: fractal evaluation terminates at every point within the fixed
iteration cap: the escape loop performs at most `fractalNMax` iterations,
and whenever it performs fewer the final iterate has escaped (its squared
magnitude exceeds the squared escape radius); the clamped distance
estimate is non-negative at any point outside the escape radius. -/
theorem claim_fractal_bounded (c cOut : Vec3) (t : ℚ) (s : ℕ)
    (hout : fractalR2 < cOut.norm2) :
    (escapeLoop c fractalNMax c 1).2.2 ≤ fractalNMax
    ∧ (((escapeLoop c fractalNMax c 1).2.2 < fractalNMax
          ∧ fractalR2 < (escapeLoop c fractalNMax c 1).1.norm2)
        ∨ (escapeLoop c fractalNMax c 1).2.2 = fractalNMax)
    ∧ 0 ≤ fractalDist cOut
    ∧ evalField .fractal cOut t s = fractalDist cOut := by
  obtain ⟨ha, hb⟩ := escapeLoop_count c fractalNMax c 1
  refine ⟨ha, ?_, fractalDist_nonneg cOut, rfl⟩
  rcases Nat.lt_or_ge (escapeLoop c fractalNMax c 1).2.2 fractalNMax with hlt | hge
  · exact Or.inl ⟨hlt, hb hlt⟩
  · exact Or.inr (le_antisymm ha hge)

/-- Witness for claim_fractal_bounded: the loop started at the origin and
the distance estimate at the escaped point `(3,0,0)`. -/
theorem claim_fractal_bounded_witness :
    (escapeLoop ⟨0, 0, 0⟩ fractalNMax ⟨0, 0, 0⟩ 1).2.2 ≤ fractalNMax
    ∧ (((escapeLoop ⟨0, 0, 0⟩ fractalNMax ⟨0, 0, 0⟩ 1).2.2 < fractalNMax
          ∧ fractalR2 < (escapeLoop ⟨0, 0, 0⟩ fractalNMax ⟨0, 0, 0⟩ 1).1.norm2)
        ∨ (escapeLoop ⟨0, 0, 0⟩ fractalNMax ⟨0, 0, 0⟩ 1).2.2 = fractalNMax)
    ∧ 0 ≤ fractalDist ⟨3, 0, 0⟩
    ∧ evalField .fractal ⟨3, 0, 0⟩ 0 0 = fractalDist ⟨3, 0, 0⟩ :=
  claim_fractal_bounded ⟨0, 0, 0⟩ ⟨3, 0, 0⟩ 0 0
    (by norm_num [fractalR2, Vec3.norm2])

/-- C6: the union combinator is the pointwise minimum of the child
distances, intersection the maximum, subtraction `max dA (−dB)`; for the
unit spheres A at the origin and B at `(3,0,0)`, the union at the origin
equals A's distance `−1`, and at the midpoint `(3/2,0,0)` it equals the
minimum of the two sphere distances. -/
theorem claim_combinators (d1 d2 : ℚ) :
    combineOp .union d1 d2 = min d1 d2
    ∧ combineOp .inter d1 d2 = max d1 d2
    ∧ combineOp .subtract d1 d2 = max d1 (-d2)
    ∧ evalField unionAB ⟨0, 0, 0⟩ 0 0 = -1
    ∧ evalField sphereA ⟨0, 0, 0⟩ 0 0 = -1
    ∧ evalField unionAB ⟨3 / 2, 0, 0⟩ 0 0 =
        min (evalField sphereA ⟨3 / 2, 0, 0⟩ 0 0) (evalField sphereB ⟨3 / 2, 0, 0⟩ 0 0) := by
  have h9 : qsqrt 9 = 3 := qsqrt_of_eq_sq 9 3 (by norm_num) (by norm_num)
  have h0 : qsqrt 0 = 0 := by simp [qsqrt]
  refine ⟨rfl, rfl, rfl, ?_, ?_, rfl⟩
  · simp [unionAB, sphereA, sphereB, evalField, evalPrim, combineOp,
      Vec3.sub, Vec3.normQ, Vec3.norm2]
    norm_num [h9, h0]
  · simp [sphereA, evalField, evalPrim, Vec3.sub, Vec3.normQ, Vec3.norm2]
    norm_num [h0]

/-- C7: when the argument list carries no `--time`/`-t`/`--seed`/`-s`
flag, parsing yields the documented defaults time `0.0` and seed `12345`,
and the CLI passes exactly these to the evaluator. -/
theorem claim_cli_defaults (args : List String) (ev : Evaluator) (n : String)
    (r : ℕ) (t : ℚ) (s : ℕ)
    (hfree : timeSeedFlagFree args)
    (hp : parseArgs args = .done n r t s)
    (hn : n ∈ listNames) :
    t = 0 ∧ s = 12345
    ∧ cliMainWith ev args = evalOutcome (ev n (gridPoints r) 0 12345) := by
  have hp2 : parseLoop args.length args "" 32 0 12345 = .done n r t s := hp
  obtain ⟨ht, hs⟩ :=
    parseLoop_keeps_time_seed args.length args "" 32 0 12345 n r t s hfree hp2
  subst ht
  subst hs
  refine ⟨rfl, rfl, ?_⟩
  simp only [cliMainWith, hp]
  rw [if_neg (names_ne_empty n hn), if_pos (names_contains n hn)]

/-- Witness for claim_cli_defaults on the flag-free argument list
`["Sphere"]`. -/
theorem claim_cli_defaults_witness :
    (0 : ℚ) = 0 ∧ (12345 : ℕ) = 12345
    ∧ cliMainWith (fun _ _ _ _ => .ok []) ["Sphere"] =
        evalOutcome ((fun _ _ _ _ => .ok []) "Sphere" (gridPoints 32) 0 12345) :=
  claim_cli_defaults ["Sphere"] (fun _ _ _ _ => .ok []) "Sphere" 32 0 12345
    (by decide) (by decide) (by decide)

/-- C8: the evaluator never catches failures internally — a failing
evaluation is exactly a failed registry lookup, reported as the
unknown-name error with no result substituted; the CLI, on an error from
the evaluator, prints a message and exits 1 without retrying. -/
theorem claim_error_propagation (name nm2 : String) (pts : List Vec3) (t tq : ℚ)
    (s sd r : ℕ) (e e2 : EvalError) (ev : Evaluator) (args : List String)
    (h1 : evaluate name pts t s = .error e)
    (h2 : parseArgs args = .done nm2 r tq sd)
    (h3 : nm2 ∈ listNames)
    (h4 : ev nm2 (gridPoints r) tq sd = .error e2) :
    e = .unknownName ∧ lookupField name = none
    ∧ cliMainWith ev args = .evalFailed 1 := by
  refine ⟨by cases e; rfl, ?_, ?_⟩
  · cases hf : lookupField name with
    | none => rfl
    | some f =>
      rw [evaluate, hf] at h1
      exact absurd h1 (by simp)
  · simp only [cliMainWith, h2]
    rw [if_neg (names_ne_empty nm2 h3), if_pos (names_contains nm2 h3), h4]
    rfl

/-- Witness for claim_error_propagation: the engine failing on `Blob`, and
the CLI run on `Sphere` with an evaluator that reports an error. -/
theorem claim_error_propagation_witness :
    (EvalError.unknownName = EvalError.unknownName)
    ∧ lookupField "Blob" = none
    ∧ cliMainWith (fun _ _ _ _ => .error .unknownName) ["Sphere"] = .evalFailed 1 :=
  claim_error_propagation "Blob" "Sphere" [] 0 0 0 12345 32 .unknownName .unknownName
    (fun _ _ _ _ => .error .unknownName) ["Sphere"]
    rfl (by decide) (by decide) rfl

/-- C9: for any resolution ≥ 2 the grid generator produces exactly
resolution³ points, indexed with x fastest then y then z
(index `x + res·(y + res·z)`), with coordinate `k` equal to
`−1 + k·(2/(res−1))`, every coordinate inside `[−1, 1]`, first point
`(−1,−1,−1)` and last point `(1,1,1)`. -/
theorem claim_grid_layout (res x y z : ℕ) (h2 : 2 ≤ res)
    (hx : x < res) (hy : y < res) (hz : z < res) :
    (gridPoints res).length = res ^ 3
    ∧ (gridPoints res)[x + res * (y + res * z)]? =
        some (FP.finite (coordQ res x), FP.finite (coordQ res y), FP.finite (coordQ res z))
    ∧ (-1 ≤ coordQ res x ∧ coordQ res x ≤ 1)
    ∧ (gridPoints res).head? = some (FP.finite (-1), FP.finite (-1), FP.finite (-1))
    ∧ (gridPoints res).getLast? = some (FP.finite 1, FP.finite 1, FP.finite 1) := by
  have h0r : 0 < res := by omega
  refine ⟨gridPoints_length res, ?_, coordQ_bounds res x h2 hx, ?_, ?_⟩
  · rw [gridPoints_getIdx res x y z hx hy hz, gridCoord_eq res x h2,
      gridCoord_eq res y h2, gridCoord_eq res z h2]
  · rw [List.head?_eq_getElem?]
    have hg := gridPoints_getIdx res 0 0 0 h0r h0r h0r
    rw [gridCoord_eq res 0 h2, coordQ_zero] at hg
    simpa using hg
  · rw [List.getLast?_eq_getElem?, gridPoints_length]
    have hg := gridPoints_getIdx res (res - 1) (res - 1) (res - 1)
      (by omega) (by omega) (by omega)
    rw [gridCoord_eq res (res - 1) h2, coordQ_last res h2] at hg
    have hidx : res ^ 3 - 1 = (res - 1) + res * ((res - 1) + res * (res - 1)) := by
      obtain ⟨m, rfl⟩ : ∃ m, res = m + 2 := ⟨res - 2, by omega⟩
      have hc : (m + 2) ^ 3 = m ^ 3 + 6 * m ^ 2 + 12 * m + 8 := by ring
      have hm1 : m + 2 - 1 = m + 1 := by omega
      rw [hc, hm1]
      have hm2 : m ^ 3 + 6 * m ^ 2 + 12 * m + 8 - 1
          = m ^ 3 + 6 * m ^ 2 + 12 * m + 7 := by omega
      rw [hm2]
      ring
    rw [hidx]
    exact hg

/-- Witness for claim_grid_layout at resolution 3, grid index
`(x, y, z) = (1, 2, 0)`. -/
theorem claim_grid_layout_witness :
    (gridPoints 3).length = 3 ^ 3
    ∧ (gridPoints 3)[1 + 3 * (2 + 3 * 0)]? =
        some (FP.finite (coordQ 3 1), FP.finite (coordQ 3 2), FP.finite (coordQ 3 0))
    ∧ (-1 ≤ coordQ 3 1 ∧ coordQ 3 1 ≤ 1)
    ∧ (gridPoints 3).head? = some (FP.finite (-1), FP.finite (-1), FP.finite (-1))
    ∧ (gridPoints 3).getLast? = some (FP.finite 1, FP.finite 1, FP.finite 1) :=
  claim_grid_layout 3 1 2 0 (by decide) (by decide) (by decide) (by decide)

/-- C10: the grid step is unguarded at the edges: for resolution ≥ 2 all
generated points are finite; at resolution 1 the step is `2/0 = +∞` and
the single generated point is all-NaN (`−1 + 0·∞`); at resolution 0 the
unsigned `resolution − 1` wraps to `2³² − 1` while the loops run zero
times, so the CLI passes an empty point list to the evaluator. -/
theorem claim_grid_edge_cases (res : ℕ) (ev : Evaluator) (h2 : 2 ≤ res) :
    (gridPoints res).all pointFinite = true
    ∧ gridStep 1 = FP.inf
    ∧ gridPoints 1 = [(FP.nan, FP.nan, FP.nan)]
    ∧ resMinusOne 0 = 2 ^ 32 - 1
    ∧ gridPoints 0 = []
    ∧ cliMainWith ev ["Sphere", "--resolution", "0"] =
        evalOutcome (ev "Sphere" [] 0 12345) := by
  have hstep1 : gridStep 1 = FP.inf := by
    unfold gridStep
    rw [fsub_bounds]
    norm_num [resMinusOne, floatOfU32, fdiv]
  refine ⟨?_, hstep1, ?_, by decide, rfl, ?_⟩
  · rw [List.all_eq_true]
    intro p hp
    unfold gridPoints at hp
    rw [List.mem_flatMap] at hp
    obtain ⟨z, _, hp⟩ := hp
    rw [List.mem_flatMap] at hp
    obtain ⟨y, _, hp⟩ := hp
    rw [List.mem_map] at hp
    obtain ⟨x, _, rfl⟩ := hp
    rw [gridCoord_eq res x h2, gridCoord_eq res y h2, gridCoord_eq res z h2]
    simp [pointFinite, FP.isFinite]
  · have hc : gridCoord 1 0 = FP.nan := by
      unfold gridCoord
      rw [hstep1]
      norm_num [floatOfU32, fmul, fadd, minBound]
    simp [gridPoints, List.range_succ, hc]
  · have hp : parseArgs ["Sphere", "--resolution", "0"] = .done "Sphere" 0 0 12345 := by
      decide
    simp only [cliMainWith, hp]
    rw [if_neg (by decide), if_pos (by decide)]
    rfl

/-- Witness for claim_grid_edge_cases at resolution 2 with a trivial
evaluator. -/
theorem claim_grid_edge_cases_witness :
    (gridPoints 2).all pointFinite = true
    ∧ gridStep 1 = FP.inf
    ∧ gridPoints 1 = [(FP.nan, FP.nan, FP.nan)]
    ∧ resMinusOne 0 = 2 ^ 32 - 1
    ∧ gridPoints 0 = []
    ∧ cliMainWith (fun _ _ _ _ => .ok []) ["Sphere", "--resolution", "0"] =
        evalOutcome ((fun _ _ _ _ => .ok []) "Sphere" ([] : List PointFP) 0 12345) :=
  claim_grid_edge_cases 2 (fun _ _ _ _ => .ok []) (by decide)

end Claims


